import Mathlib

/-!
Verification of the resilient task-execution and delivery core of the
PANTHEON_JARVIS backend.  The Lean definitions below are a shallow embedding
of the Python sources:

  * src/utils/error_handler.py      (ErrorHandler, CircuitBreaker)
  * src/cognitive/task_manager.py   (TaskManager, BackgroundTask)
  * src/cognitive/session_manager.py (UserSessionManager, UserSession)

Wall-clock timestamps are modelled as rationals supplied by the caller,
external effects (the wrapped operation of a breaker or retry loop, a
websocket send) are modelled as explicit outcome parameters, and the
mutable registries become association lists threaded through each
operation.  Fields of the Python objects that no claim touches
(created_at style timestamps, the conversation-history ring buffer) are
omitted.
-/

/-! ## Generic association-list registry helpers -/

/-- Lookup in an association list keyed by strings (the shape of the
Python dictionaries used for the task and session registries). -/
def lookupAssoc {β : Type} (k : String) : List (String × β) → Option β
  | [] => none
  | (k2, v) :: rest => if k2 = k then some v else lookupAssoc k rest

/-- Update the value stored under a key, leaving the list unchanged when
the key is absent (Python only mutates entries it has already fetched). -/
def updateWith {β : Type} (k : String) (f : β → β) : List (String × β) → List (String × β)
  | [] => []
  | (k2, v) :: rest => if k2 = k then (k2, f v) :: rest else (k2, v) :: updateWith k f rest

/-- Overwrite the value stored under a key that is already present. -/
def updateAssoc {β : Type} (k : String) (v : β) (l : List (String × β)) : List (String × β) :=
  updateWith k (fun _ => v) l

theorem lookup_updateWith_self {β : Type} (k : String) (f : β → β) (l : List (String × β)) :
    lookupAssoc k (updateWith k f l) = (lookupAssoc k l).map f := by
  induction l with
  | nil => rfl
  | cons hd tl ih =>
    obtain ⟨k2, v⟩ := hd
    by_cases h : k2 = k <;> simp [updateWith, lookupAssoc, h, ih]

theorem lookup_updateWith_other {β : Type} (k k2 : String) (f : β → β)
    (l : List (String × β)) (h : k2 ≠ k) :
    lookupAssoc k2 (updateWith k f l) = lookupAssoc k2 l := by
  induction l with
  | nil => rfl
  | cons hd tl ih =>
    obtain ⟨k3, v⟩ := hd
    by_cases h3 : k3 = k
    · subst h3
      simp [updateWith, lookupAssoc, Ne.symm h]
    · simp [updateWith, lookupAssoc, h3, ih]

theorem updateWith_updateWith {β : Type} (k : String) (f g : β → β) (l : List (String × β)) :
    updateWith k f (updateWith k g l) = updateWith k (f ∘ g) l := by
  induction l with
  | nil => rfl
  | cons hd tl ih =>
    obtain ⟨k2, v⟩ := hd
    by_cases h : k2 = k <;> simp [updateWith, h, ih]

/-! ## CircuitBreaker (src/utils/error_handler.py, class CircuitBreaker) -/

/-- The three values of the breaker state string in the source
("closed", "open", "half-open"). -/
inductive CBState where
  | closed
  | opened
  | halfOpen
  deriving DecidableEq, Repr

/-- State of one CircuitBreaker instance: the constructor arguments plus
the mutable fields failure count, last failure timestamp and state. -/
structure CircuitBreaker where
  failure_threshold : Nat
  recovery_timeout : ℚ
  failure_count : Nat
  last_failure_time : Option ℚ
  state : CBState
  deriving DecidableEq, Repr

/-- CircuitBreaker.__init__: zero failures, no failure timestamp, closed. -/
def initCircuitBreaker (threshold : Nat) (timeout : ℚ) : CircuitBreaker :=
  ⟨threshold, timeout, 0, none, CBState.closed⟩

/-- CircuitBreaker._time_since_failure at the given current time. -/
def timeSinceFailure (cb : CircuitBreaker) (now : ℚ) : ℚ :=
  match cb.last_failure_time with
  | none => 0
  | some t => now - t

/-- CircuitBreaker._should_attempt_reset at the given current time. -/
def shouldAttemptReset (cb : CircuitBreaker) (now : ℚ) : Bool :=
  match cb.last_failure_time with
  | none => true
  | some _ => decide (cb.recovery_timeout ≤ timeSinceFailure cb now)

/-- CircuitBreaker._on_success: reset the failure count; a half-open
breaker becomes closed. -/
def cbOnSuccess (cb : CircuitBreaker) : CircuitBreaker :=
  let cb := { cb with failure_count := 0 }
  if cb.state = CBState.halfOpen then { cb with state := CBState.closed } else cb

/-- CircuitBreaker._on_failure: bump the failure count, stamp the failure
time, and open the breaker once the threshold is reached. -/
def cbOnFailure (cb : CircuitBreaker) (now : ℚ) : CircuitBreaker :=
  let cb := { cb with failure_count := cb.failure_count + 1, last_failure_time := some now }
  if cb.failure_threshold ≤ cb.failure_count then { cb with state := CBState.opened } else cb

/-- What CircuitBreaker.call produced: the wrapped value, the re-raised
underlying error, or the fast-fail CircuitBreakerOpenError. -/
inductive CBResult (ε α : Type) where
  | success (v : α)
  | failure (e : ε)
  | openError
  deriving DecidableEq, Repr

/-- Full observable outcome of one CircuitBreaker.call: the result, the
breaker state afterwards, whether the wrapped operation was invoked, and
whether the open-to-half-open transition was taken during the call. -/
structure CBOutcome (ε α : Type) where
  result : CBResult ε α
  cb : CircuitBreaker
  invoked : Bool
  went_half_open : Bool
  deriving DecidableEq, Repr

/-- The body of CircuitBreaker.call after the open-state guard: run the
operation and route through _on_success or _on_failure. -/
def cbRunOp {ε α : Type} (cb : CircuitBreaker) (now : ℚ) (op : Except ε α)
    (went : Bool) : CBOutcome ε α :=
  match op with
  | Except.ok v => ⟨CBResult.success v, cbOnSuccess cb, true, went⟩
  | Except.error e => ⟨CBResult.failure e, cbOnFailure cb now, true, went⟩

/-- CircuitBreaker.call.  The wrapped operation is a zero-argument unit
of work; its would-be outcome is passed explicitly and only consulted
when the breaker actually invokes it. -/
def callCB {ε α : Type} (cb : CircuitBreaker) (now : ℚ) (op : Except ε α) : CBOutcome ε α :=
  if cb.state = CBState.opened then
    if shouldAttemptReset cb now then
      cbRunOp { cb with state := CBState.halfOpen } now op true
    else
      ⟨CBResult.openError, cb, false, false⟩
  else
    cbRunOp cb now op false

/-- A sequence of calls whose operation fails, one timestamp per call. -/
def runFailures (cb : CircuitBreaker) (ts : List ℚ) : CircuitBreaker :=
  ts.foldl (fun c t => (callCB c t (Except.error () : Except Unit Unit)).cb) cb

/-- Reachability invariant of the breaker: whenever the state is open or
half-open, the failure count has reached the threshold, and an open
breaker carries a failure timestamp. -/
def CBInv (cb : CircuitBreaker) : Prop :=
  (cb.state = CBState.opened ∨ cb.state = CBState.halfOpen) →
    cb.failure_threshold ≤ cb.failure_count ∧ cb.last_failure_time.isSome = true

/-! ## Retry policy (src/utils/error_handler.py, class ErrorHandler) -/

/-- RetryConfig: the numeric knobs plus the retryable-exception filter
and the optional custom retry predicate. -/
structure RetryConfig (ε : Type) where
  max_attempts : Nat
  base_delay : ℚ
  max_delay : ℚ
  exponential_base : ℚ
  backoff_multiplier : ℚ
  retryable : ε → Bool
  should_retry : Option (ε → Bool)

/-- An ErrorRecord as appended to the handler ledger: the error, the
attempt count at which it was written, the recovery strategy, and the
success flag. -/
structure ErrorRecord (ε : Type) where
  error : ε
  retry_count : Nat
  recovery_strategy : Option String
  success : Bool
  deriving DecidableEq, Repr

/-- ErrorHandler._should_retry: the isinstance filter, then the custom
predicate, defaulting to retry-everything. -/
def shouldRetryErr {ε : Type} (cfg : RetryConfig ε) (e : ε) : Bool :=
  if cfg.retryable e = false then false
  else
    match cfg.should_retry with
    | some p => p e
    | none => true

/-- ErrorHandler._calculate_delay. -/
def calculateDelay {ε : Type} (attempt : Nat) (cfg : RetryConfig ε) : ℚ :=
  if attempt = 1 then cfg.base_delay
  else min (cfg.base_delay * cfg.exponential_base ^ (attempt - 1) * cfg.backoff_multiplier)
    cfg.max_delay

/-- Result of retry_with_backoff: the returned value, the re-raised last
error, or the silent fall-through when max_attempts is zero. -/
inductive RetryResult (ε α : Type) where
  | ok (v : α)
  | raised (e : ε)
  | noAttempt
  deriving DecidableEq, Repr

/-- Observable run of retry_with_backoff: the result, the error records
appended to the ledger, and the list of sleeps, each tagged with the
attempt number that follows the sleep. -/
structure RetryRun (ε α : Type) where
  result : RetryResult ε α
  records : List (ErrorRecord ε)
  delays : List (Nat × ℚ)
  deriving DecidableEq, Repr

/-- The attempt loop of ErrorHandler.retry_with_backoff.  The operation
is modelled by its outcome at each attempt number; the fuel equals the
number of remaining loop iterations. -/
def retryAux {ε α : Type} (cfg : RetryConfig ε) (op : Nat → Except ε α) :
    Nat → Nat → Option ε → RetryRun ε α
  | 0, _, _ => ⟨RetryResult.noAttempt, [], []⟩
  | fuel + 1, attempt, last =>
    match op attempt with
    | Except.ok v =>
      let recs : List (ErrorRecord ε) :=
        match last with
        | some e =>
          if 1 < attempt then [⟨e, attempt, some "retry_with_backoff", true⟩] else []
        | none => []
      ⟨RetryResult.ok v, recs, []⟩
    | Except.error e =>
      if shouldRetryErr cfg e = false ∨ cfg.max_attempts ≤ attempt then
        ⟨RetryResult.raised e, [⟨e, attempt, none, false⟩], []⟩
      else
        let r := retryAux cfg op fuel (attempt + 1) (some e)
        ⟨r.result, r.records, (attempt + 1, calculateDelay attempt cfg) :: r.delays⟩

/-- ErrorHandler.retry_with_backoff on a fresh handler. -/
def retryWithBackoff {ε α : Type} (cfg : RetryConfig ε) (op : Nat → Except ε α) :
    RetryRun ε α :=
  retryAux cfg op cfg.max_attempts 1 none

/-- The RetryConfig defaults of the source. -/
def defaultRetryConfig : RetryConfig Unit :=
  ⟨3, 1, 30, 2, 3 / 2, fun _ => true, none⟩

/-! ## Task runtime (src/cognitive/task_manager.py, class TaskManager) -/

/-- TaskStatus enumeration of the source. -/
inductive TaskStatus where
  | pending
  | running
  | completed
  | failed
  | cancelled
  deriving DecidableEq, Repr

/-- The three terminal statuses checked by cancel_task. -/
def isTerminal (s : TaskStatus) : Bool :=
  match s with
  | TaskStatus.completed => true
  | TaskStatus.failed => true
  | TaskStatus.cancelled => true
  | _ => false

/-- A BackgroundTask record.  The opaque result payload has type alpha;
the bound callable, the timestamps and the is_background flag are not
needed by any claim and are omitted. -/
structure BackgroundTask (α : Type) where
  task_id : String
  name : String
  status : TaskStatus
  progress : ℚ
  result : Option α
  error : Option String
  user_id : String
  deriving DecidableEq, Repr

/-- The TaskManager._tasks registry. -/
abbrev TaskRegistry (α : Type) : Type := List (String × BackgroundTask α)

/-- A freshly submitted task, as built by submit_task: pending, zero
progress, no result and no error yet. -/
def mkTask {α : Type} (id name user : String) : BackgroundTask α :=
  ⟨id, name, TaskStatus.pending, 0, none, none, user⟩

/-- TaskManager.get_task_status: the registry lookup behind the snapshot
dictionary (None when the id is unknown). -/
def getTaskStatus {α : Type} (reg : TaskRegistry α) (id : String) : Option (BackgroundTask α) :=
  lookupAssoc id reg

/-- TaskManager.cancel_task: False when the id is unknown or the task is
terminal, otherwise flip the status to cancelled and return True. -/
def cancelTask {α : Type} (reg : TaskRegistry α) (id : String) : Bool × TaskRegistry α :=
  match lookupAssoc id reg with
  | none => (false, reg)
  | some t =>
    if isTerminal t.status then (false, reg)
    else (true, updateWith id (fun t2 => { t2 with status := TaskStatus.cancelled }) reg)

/-- TaskManager.update_progress: clamp to the unit interval and store;
the source checks only that the id is present. -/
def updateProgress {α : Type} (reg : TaskRegistry α) (id : String) (p : ℚ) : TaskRegistry α :=
  updateWith id (fun t => { t with progress := max 0 (min 1 p) }) reg

/-- The registry mutations performed while a task runs: the worker entry
of _run_task setting the status to running, the two exits of _run_task
setting completed or failed, plus the externally triggered cancel_task
and update_progress operations. -/
inductive TMEvent (α : Type) where
  | start (id : String)
  | finishOk (id : String) (v : α)
  | finishErr (id : String) (msg : String)
  | cancel (id : String)
  | progress (id : String) (p : ℚ)
  deriving DecidableEq, Repr

/-- One registry mutation, exactly as the corresponding source line
performs it.  Note that the two finish events overwrite the status
unconditionally, mirroring _run_task. -/
def stepEvent {α : Type} (reg : TaskRegistry α) : TMEvent α → TaskRegistry α
  | TMEvent.start id =>
    updateWith id (fun t => { t with status := TaskStatus.running }) reg
  | TMEvent.finishOk id v =>
    updateWith id (fun t => { t with status := TaskStatus.completed, result := some v }) reg
  | TMEvent.finishErr id msg =>
    updateWith id (fun t => { t with status := TaskStatus.failed, error := some msg }) reg
  | TMEvent.cancel id => (cancelTask reg id).2
  | TMEvent.progress id p => updateProgress reg id p

/-- The task an event is addressed to. -/
def eventId {α : Type} : TMEvent α → String
  | TMEvent.start id => id
  | TMEvent.finishOk id _ => id
  | TMEvent.finishErr id _ => id
  | TMEvent.cancel id => id
  | TMEvent.progress id _ => id

/-- Apply a list of events in order. -/
def applyEvents {α : Type} (reg : TaskRegistry α) : List (TMEvent α) → TaskRegistry α
  | [] => reg
  | e :: rest => applyEvents (stepEvent reg e) rest

/-- Status of one task in the registry. -/
def statusOf {α : Type} (reg : TaskRegistry α) (id : String) : Option TaskStatus :=
  (lookupAssoc id reg).map (fun t => t.status)

/-- The worker-run events of a task: its single start and single finish. -/
inductive RunTag where
  | start
  | finish
  deriving DecidableEq, Repr

/-- The run tag of an event, when the event belongs to the given task
and is part of its worker run. -/
def runTag {α : Type} (id : String) : TMEvent α → Option RunTag
  | TMEvent.start id2 => if id2 = id then some RunTag.start else none
  | TMEvent.finishOk id2 _ => if id2 = id then some RunTag.finish else none
  | TMEvent.finishErr id2 _ => if id2 = id then some RunTag.finish else none
  | _ => none

/-- The worker-run events of a task along a trace. -/
def runTags {α : Type} (id : String) (es : List (TMEvent α)) : List RunTag :=
  es.filterMap (runTag id)

/-- A task is run at most once: its run events form a prefix of one
start followed by one finish. -/
def ValidTags (ts : List RunTag) : Prop :=
  ts = [] ∨ ts = [RunTag.start] ∨ ts = [RunTag.start, RunTag.finish]

instance : DecidablePred ValidTags := fun ts => by
  unfold ValidTags; infer_instance

/-- A trace is valid for a task when either the trace contains no run
events of that task, or the task starts out pending (the status
submit_task gives it) and its run events form one start-finish run. -/
def ValidTrace {α : Type} (reg : TaskRegistry α) (es : List (TMEvent α)) (id : String) : Prop :=
  runTags id es = [] ∨ (statusOf reg id = some TaskStatus.pending ∧ ValidTags (runTags id es))

instance {α : Type} [DecidableEq α] (reg : TaskRegistry α) (es : List (TMEvent α)) (id : String) :
    Decidable (ValidTrace reg es id) := by
  unfold ValidTrace; infer_instance

/-- The successive observed statuses of a task along a trace (initial
status first). -/
def statusTrace {α : Type} (id : String) : TaskRegistry α → List (TMEvent α) →
    List (Option TaskStatus)
  | reg, [] => [statusOf reg id]
  | reg, e :: rest => statusOf reg id :: statusTrace id (stepEvent reg e) rest

/-- The status changes a single registry mutation can produce on one
task, as realised by the code: unchanged, pending to running, a
cancellation of a non-terminal task, a finish from running, or the
worker overwriting a cancelled task (restart or finish). -/
def allowedStep (s s2 : TaskStatus) : Prop :=
  s2 = s ∨
  (s = TaskStatus.pending ∧ (s2 = TaskStatus.running ∨ s2 = TaskStatus.cancelled)) ∨
  (s = TaskStatus.running ∧
    (s2 = TaskStatus.completed ∨ s2 = TaskStatus.failed ∨ s2 = TaskStatus.cancelled)) ∨
  (s = TaskStatus.cancelled ∧
    (s2 = TaskStatus.running ∨ s2 = TaskStatus.completed ∨ s2 = TaskStatus.failed))

/-- Lift allowedStep to optional statuses; an absent task stays absent. -/
def allowedStepO (s s2 : Option TaskStatus) : Prop :=
  match s, s2 with
  | none, none => True
  | some a, some b => allowedStep a b
  | _, _ => False

/-- Intra-trace invariant tying the status of a task to the run events
still ahead of it. -/
def goodPhase (s : Option TaskStatus) (rem : List RunTag) : Prop :=
  match s with
  | none => rem = []
  | some TaskStatus.pending => ValidTags rem
  | some TaskStatus.cancelled => ValidTags rem ∨ rem = [RunTag.finish]
  | some TaskStatus.running => rem = [] ∨ rem = [RunTag.finish]
  | some TaskStatus.completed => rem = []
  | some TaskStatus.failed => rem = []

/-! ## wait_for_task (src/cognitive/task_manager.py) -/

/-- How a wait_for_task call ends: the stored result of a completed
task, a raised TimeoutError, the stored error of a failed task, the
cancellation error, the ValueError for an unknown id, or the poll loop
still running when the supplied observations end. -/
inductive WaitOutcome (α : Type) where
  | result (v : Option α)
  | timeoutError
  | failedError (msg : Option String)
  | cancelledError
  | valueError
  | stillWaiting
  deriving DecidableEq, Repr

/-- The timeout guard of the poll loop.  The source tests the Python
truthiness of the timeout argument, so both None and a zero timeout
disable the guard; otherwise the loop times out once the elapsed time
since the task started strictly exceeds it. -/
def fireTimeout (timeout : Option ℚ) (elapsed : ℚ) : Bool :=
  match timeout with
  | none => false
  | some q => if q = 0 then false else decide (q < elapsed)

/-- The effect of the cancel_task call made on timeout, on the waited
task itself (the task is known to be registered). -/
def applyCancel {α : Type} (t : BackgroundTask α) : BackgroundTask α :=
  if isTerminal t.status then t else { t with status := TaskStatus.cancelled }

/-- The terminal dispatch at the bottom of wait_for_task. -/
def waitDispatch {α : Type} (t : BackgroundTask α) : WaitOutcome α :=
  match t.status with
  | TaskStatus.completed => WaitOutcome.result t.result
  | TaskStatus.failed => WaitOutcome.failedError t.error
  | _ => WaitOutcome.cancelledError

/-- The poll loop of wait_for_task.  Each observation is the task as
seen after one 0.1-second sleep, paired with the elapsed time since the
task started (0 while it has not started), exactly the quantity the
source computes from started_at.  Returns the outcome and the final
state of the waited task. -/
def waitLoop {α : Type} (timeout : Option ℚ) :
    BackgroundTask α → List (BackgroundTask α × ℚ) → WaitOutcome α × BackgroundTask α
  | t, [] =>
    if t.status = TaskStatus.running ∨ t.status = TaskStatus.pending then
      (WaitOutcome.stillWaiting, t)
    else (waitDispatch t, t)
  | t, (t2, e) :: rest =>
    if t.status = TaskStatus.running ∨ t.status = TaskStatus.pending then
      if fireTimeout timeout e then (WaitOutcome.timeoutError, applyCancel t2)
      else waitLoop timeout t2 rest
    else (waitDispatch t, t)

/-- TaskManager.wait_for_task: the unknown-id guard raising ValueError,
then the poll loop on the registered task. -/
def waitForTask {α : Type} (reg : TaskRegistry α) (id : String) (timeout : Option ℚ)
    (obs : List (BackgroundTask α × ℚ)) : WaitOutcome α × TaskRegistry α :=
  match lookupAssoc id reg with
  | none => (WaitOutcome.valueError, reg)
  | some t =>
    let p := waitLoop timeout t obs
    (p.1, updateAssoc id p.2 reg)

/-! ## Delivery session registry (src/cognitive/session_manager.py) -/

/-- A TaskResult queued for delivery (the timestamp is omitted). -/
structure TaskResult (α : Type) where
  task_id : String
  success : Bool
  output : Option α
  error : Option String
  delivered : Bool
  deriving DecidableEq, Repr

/-- A UserSession.  The websocket handle is modelled by its presence;
the timestamps and conversation history are omitted. -/
structure UserSession (α : Type) where
  user_id : String
  is_online : Bool
  has_websocket : Bool
  pending_tasks : List String
  pending_results : List (TaskResult α)
  deriving DecidableEq, Repr

/-- The UserSessionManager._sessions registry. -/
abbrev SessionRegistry (α : Type) : Type := List (String × UserSession α)

/-- A freshly created session: offline, no websocket, empty lists. -/
def mkSession {α : Type} (uid : String) : UserSession α :=
  ⟨uid, false, false, [], []⟩

/-- UserSessionManager.get_or_create_session: create the session lazily
on first reference, return the existing one afterwards. -/
def getOrCreateSession {α : Type} (reg : SessionRegistry α) (uid : String) :
    UserSession α × SessionRegistry α :=
  match lookupAssoc uid reg with
  | none => (mkSession uid, reg ++ [(uid, mkSession uid)])
  | some s => (s, reg)

/-- UserSessionManager.connect_user: get-or-create, then mark online and
attach the websocket handle. -/
def connectUser {α : Type} (reg : SessionRegistry α) (uid : String) :
    UserSession α × SessionRegistry α :=
  let p := getOrCreateSession reg uid
  let s := { p.1 with is_online := true, has_websocket := true }
  (s, updateAssoc uid s p.2)

/-- How UserSessionManager.store_result disposed of the outcome. -/
inductive StoreOutcome where
  | deliveredNow
  | queued
  | dropped
  deriving DecidableEq, Repr

/-- UserSessionManager.store_result.  The websocket send is external;
pushOk says whether the immediate send_json would succeed.  When no
session exists for the identity the source logs a warning and returns,
dropping the outcome. -/
def storeResult {α : Type} (reg : SessionRegistry α) (uid tid : String)
    (success : Bool) (output : Option α) (err : Option String) (pushOk : Bool) :
    StoreOutcome × SessionRegistry α :=
  match lookupAssoc uid reg with
  | none => (StoreOutcome.dropped, reg)
  | some s =>
    let s := { s with pending_tasks := s.pending_tasks.erase tid }
    let tr : TaskResult α := ⟨tid, success, output, err, false⟩
    if s.is_online && s.has_websocket then
      if pushOk then (StoreOutcome.deliveredNow, updateAssoc uid s reg)
      else
        (StoreOutcome.queued,
          updateAssoc uid { s with pending_results := s.pending_results ++ [tr] } reg)
    else
      (StoreOutcome.queued,
        updateAssoc uid { s with pending_results := s.pending_results ++ [tr] } reg)

/-- The delivery loop of deliver_pending_results over the copied list:
skip already-delivered entries, mark and count successful sends, and
break at the first send failure leaving the rest untouched.  The send
outcome is external and modelled per entry by sendOk. -/
def deliverLoop {α : Type} (sendOk : TaskResult α → Bool) :
    List (TaskResult α) → Nat × List (TaskResult α)
  | [] => (0, [])
  | r :: rs =>
    if r.delivered then
      let p := deliverLoop sendOk rs
      (p.1, r :: p.2)
    else if sendOk r then
      let p := deliverLoop sendOk rs
      (p.1 + 1, { r with delivered := true } :: p.2)
    else (0, r :: rs)

/-- UserSessionManager.deliver_pending_results: 0 when the session is
missing or has no websocket, otherwise run the delivery loop and keep
only the entries still undelivered. -/
def deliverPendingResults {α : Type} (reg : SessionRegistry α) (uid : String)
    (sendOk : TaskResult α → Bool) : Nat × SessionRegistry α :=
  match lookupAssoc uid reg with
  | none => (0, reg)
  | some s =>
    if s.has_websocket then
      let p := deliverLoop sendOk s.pending_results
      (p.1,
        updateAssoc uid
          { s with pending_results := p.2.filter (fun r => !r.delivered) } reg)
    else (0, reg)

/-! ## Concrete instances used by counterexamples and witnesses -/

/-- An operation that fails on every attempt. -/
def opAlwaysFail : Nat → Except Unit Nat := fun _ => Except.error ()

/-- Scenario B operation: fails on attempts 1 and 2, succeeds on 3. -/
def opThirdTime : Nat → Except Unit Nat := fun k =>
  if k = 3 then Except.ok 42 else Except.error ()

/-- A task that the worker has already completed. -/
def taskCompleted : BackgroundTask Nat :=
  { mkTask "task_1" "n" "u" with status := TaskStatus.completed }

/-- A registry holding one already-completed task. -/
def regDone : TaskRegistry Nat := [("task_1", taskCompleted)]

/-- A registry holding one freshly submitted (pending) task. -/
def regPending : TaskRegistry Nat := [("task_1", mkTask "task_1" "n" "u")]

/-- Trace: the worker picks the task up, the task is cancelled while
running, then the worker finishes the work. -/
def traceCancelThenFinish : List (TMEvent Nat) :=
  [TMEvent.start "task_1", TMEvent.cancel "task_1", TMEvent.finishOk "task_1" 7]

/-- Trace: a normal run followed by a cancel of the finished task. -/
def traceNormalRun : List (TMEvent Nat) :=
  [TMEvent.start "task_1", TMEvent.finishOk "task_1" 7, TMEvent.cancel "task_1"]

/-- A running task, as observed by a waiter. -/
def taskRunning : BackgroundTask Nat := ⟨"t", "n", TaskStatus.running, 0, none, none, "u"⟩

/-- The same task once the worker has completed it with result 42. -/
def taskDone : BackgroundTask Nat :=
  { taskRunning with status := TaskStatus.completed, result := some 42 }

/-- A registry holding the running task, for waiters. -/
def regWait : TaskRegistry Nat := [("t", taskRunning)]

/-- One online session with three undelivered queued results. -/
def sessionOnline : UserSession Nat :=
  ⟨"u", true, true, [],
    [⟨"a", true, some 1, none, false⟩, ⟨"b", true, some 2, none, false⟩,
      ⟨"c", true, some 3, none, false⟩]⟩

/-- Session registry holding the online session. -/
def regSession : SessionRegistry Nat := [("u", sessionOnline)]

/-- A send oracle that fails exactly on the result of task b. -/
def sendNotB : TaskResult Nat → Bool := fun r => r.task_id ≠ "b"

/-! ## Helper lemmas -/

theorem updateWith_absent {β : Type} (k : String) (f : β → β) (l : List (String × β))
    (h : lookupAssoc k l = none) : updateWith k f l = l := by
  induction l with
  | nil => rfl
  | cons hd tl ih =>
    obtain ⟨k2, v⟩ := hd
    by_cases hk : k2 = k
    · simp [lookupAssoc, hk] at h
    · simp only [updateWith, if_neg hk]
      rw [ih (by simpa [lookupAssoc, hk] using h)]

/-! ## Claim C10 -/

/-- Claim C10: for an id not present in the registry, wait_for_task
raises ValueError immediately, get_task_status returns None, and
cancel_task returns False. -/
theorem unknown_task_id_behaviour {α : Type} (reg : TaskRegistry α) (id : String)
    (timeout : Option ℚ) (obs : List (BackgroundTask α × ℚ))
    (h : lookupAssoc id reg = none) :
    waitForTask reg id timeout obs = (WaitOutcome.valueError, reg) ∧
    getTaskStatus reg id = none ∧
    cancelTask reg id = (false, reg) := by
  refine ⟨?_, ?_, ?_⟩ <;> simp [waitForTask, getTaskStatus, cancelTask, h]

/-- Witness for claim C10 on the empty registry. -/
theorem unknown_task_id_behaviour_witness :
    waitForTask ([] : TaskRegistry Nat) "task_9" (some 1) [] = (WaitOutcome.valueError, []) ∧
    getTaskStatus ([] : TaskRegistry Nat) "task_9" = none ∧
    cancelTask ([] : TaskRegistry Nat) "task_9" = (false, []) :=
  unknown_task_id_behaviour [] "task_9" (some 1) [] rfl

/-! ## Claim C8 -/

/-- Counterexample to claim C8 as stated: update_progress on a task in a
terminal state is not a no-op; the source checks only that the id is
present and stores the clamped value even for a completed task. -/
theorem update_progress_terminal_not_noop :
    statusOf regDone "task_1" = some TaskStatus.completed ∧
    isTerminal TaskStatus.completed = true ∧
    (lookupAssoc "task_1" (updateProgress regDone "task_1" (1 / 2))).map
      (fun t => t.progress) = some (1 / 2) ∧
    updateProgress regDone "task_1" (1 / 2) ≠ regDone := by
  have hclamp : max 0 (min 1 ((1 : ℚ) / 2)) = 1 / 2 := by
    rw [min_eq_right (by norm_num), max_eq_right (by norm_num)]
  have hmap : (lookupAssoc "task_1" (updateProgress regDone "task_1" (1 / 2))).map
      (fun t => t.progress) = some (1 / 2) := by
    simp [updateProgress, regDone, updateWith, lookupAssoc, hclamp]
    norm_num
  refine ⟨rfl, rfl, hmap, fun heq => ?_⟩
  rw [heq] at hmap
  simp [regDone, lookupAssoc, taskCompleted, mkTask] at hmap

/-- Claim C8 (amended): update_progress stores the value clamped to the
unit interval whenever the id is known, terminal or not, and is a no-op
exactly when the id is unknown; other registry entries and the status of
the task itself are untouched. -/
theorem update_progress_spec {α : Type} (reg : TaskRegistry α) (id : String) (p : ℚ) :
    (lookupAssoc id reg = none → updateProgress reg id p = reg) ∧
    (∀ t : BackgroundTask α, lookupAssoc id reg = some t →
      lookupAssoc id (updateProgress reg id p) =
        some { t with progress := max 0 (min 1 p) } ∧
      0 ≤ max 0 (min 1 p) ∧ max 0 (min 1 p) ≤ 1 ∧
      statusOf (updateProgress reg id p) id = statusOf reg id) ∧
    (∀ id2, id2 ≠ id → lookupAssoc id2 (updateProgress reg id p) = lookupAssoc id2 reg) := by
  refine ⟨fun h => updateWith_absent id _ reg h, fun t ht => ?_, fun id2 h2 =>
    lookup_updateWith_other id id2 _ reg h2⟩
  have hl := lookup_updateWith_self id
    (fun t => { t with progress := max 0 (min 1 p) }) reg
  rw [ht] at hl
  refine ⟨hl, le_max_left 0 _, max_le (by norm_num) (min_le_left 1 p), ?_⟩
  unfold statusOf updateProgress
  rw [hl, ht]
  rfl

/-- Witness for claim C8 (amended): a value above 1 is clamped to 1 on a
completed task. -/
theorem update_progress_spec_witness :
    lookupAssoc "task_1" (updateProgress regDone "task_1" 2) =
      some { taskCompleted with progress := max 0 (min 1 2) } :=
  ((update_progress_spec regDone "task_1" 2).2.1 taskCompleted rfl).1

/-! ## Claim C5 -/

/-- Counterexample to claim C5 as stated: storing a result for an
identity that has never been referenced does not create a session lazily
and does not enqueue the outcome; store_result returns after a warning
and the result is dropped. -/
theorem store_result_unknown_identity_drops :
    storeResult ([] : SessionRegistry Nat) "userA" "task_7" true (some 1) none true
      = (StoreOutcome.dropped, []) ∧
    lookupAssoc "userA"
      (storeResult ([] : SessionRegistry Nat) "userA" "task_7" true (some 1) none true).2
      = none :=
  ⟨rfl, rfl⟩

/-- Claim C5 (amended): for an identity that has a session, store_result
delivers immediately (and does not enqueue) exactly when the session is
online with an attached handle and the push succeeds, and otherwise
appends the outcome to the pending queue with delivered = false; for an
identity with no session the outcome is dropped (store_result does not
create sessions; only get_or_create_session and connect do). -/
theorem store_result_spec {α : Type} (reg : SessionRegistry α) (uid tid : String)
    (success : Bool) (output : Option α) (err : Option String) (pushOk : Bool) :
    (lookupAssoc uid reg = none →
      storeResult reg uid tid success output err pushOk = (StoreOutcome.dropped, reg)) ∧
    (∀ s : UserSession α, lookupAssoc uid reg = some s →
      (s.is_online = true → s.has_websocket = true → pushOk = true →
        (storeResult reg uid tid success output err pushOk).1 = StoreOutcome.deliveredNow ∧
        (lookupAssoc uid (storeResult reg uid tid success output err pushOk).2).map
          (fun s2 => s2.pending_results) = some s.pending_results) ∧
      ((s.is_online = false ∨ s.has_websocket = false ∨ pushOk = false) →
        (storeResult reg uid tid success output err pushOk).1 = StoreOutcome.queued ∧
        (lookupAssoc uid (storeResult reg uid tid success output err pushOk).2).map
          (fun s2 => s2.pending_results) =
          some (s.pending_results ++ [⟨tid, success, output, err, false⟩]))) := by
  constructor
  · intro h
    simp [storeResult, h]
  · intro s hs
    constructor
    · intro hon hws hpush
      subst hpush
      simp [storeResult, hs, hon, hws, updateAssoc, lookup_updateWith_self]
    · intro hoff
      rcases hoff with hoff | hoff | hoff <;>
        simp [storeResult, hs, hoff, updateAssoc, lookup_updateWith_self]

/-- Witness for claim C5 (amended): storing for the online session with
a successful push delivers immediately and leaves the queue unchanged. -/
theorem store_result_spec_witness :
    (storeResult regSession "u" "t9" true (some 4) none true).1 =
      StoreOutcome.deliveredNow ∧
    (lookupAssoc "u" (storeResult regSession "u" "t9" true (some 4) none true).2).map
      (fun s2 => s2.pending_results) = some sessionOnline.pending_results :=
  ((store_result_spec regSession "u" "t9" true (some 4) none true).2
    sessionOnline rfl).1 rfl rfl rfl

/-! ## Claim C6 -/

/-- Counterexample to claim C6 as stated: with the default
configuration, the sleep before attempt 2 is base_delay = 1, whereas the
claimed formula min(max_delay, base_delay * backoff_exponent^(2-1))
gives 2 reading the exponent base as exponential_base (and 3/2 reading
it as backoff_multiplier); neither equals the observed delay. -/
theorem retry_delay_counterexample :
    (2, (1 : ℚ)) ∈ (retryWithBackoff defaultRetryConfig opAlwaysFail).delays ∧
    (1 : ℚ) ≠ min defaultRetryConfig.max_delay
      (defaultRetryConfig.base_delay * defaultRetryConfig.exponential_base) ∧
    (1 : ℚ) ≠ min defaultRetryConfig.max_delay
      (defaultRetryConfig.base_delay * defaultRetryConfig.backoff_multiplier) := by
  refine ⟨?_, ?_, ?_⟩
  · have h : (retryWithBackoff defaultRetryConfig opAlwaysFail).delays =
        [(2, calculateDelay 1 defaultRetryConfig), (3, calculateDelay 2 defaultRetryConfig)] := by
      simp [retryWithBackoff, retryAux, defaultRetryConfig, shouldRetryErr, opAlwaysFail]
    rw [h]
    have h1 : calculateDelay 1 defaultRetryConfig = 1 := rfl
    rw [h1]
    exact List.mem_cons_self _ _
  · have : min defaultRetryConfig.max_delay
        (defaultRetryConfig.base_delay * defaultRetryConfig.exponential_base) = 2 := by
      rw [show defaultRetryConfig.base_delay * defaultRetryConfig.exponential_base
          = (2 : ℚ) by norm_num [defaultRetryConfig]]
      exact min_eq_right (by norm_num [defaultRetryConfig])
    rw [this]; norm_num
  · have : min defaultRetryConfig.max_delay
        (defaultRetryConfig.base_delay * defaultRetryConfig.backoff_multiplier) = 3 / 2 := by
      rw [show defaultRetryConfig.base_delay * defaultRetryConfig.backoff_multiplier
          = (3 / 2 : ℚ) by norm_num [defaultRetryConfig]]
      exact min_eq_right (by norm_num [defaultRetryConfig])
    rw [this]; norm_num

/-- Every sleep recorded by the retry loop is tagged with the attempt
it precedes, stays within the attempt budget, and its length is
calculate_delay of the preceding attempt number. -/
theorem retryAux_delays {ε α : Type} (cfg : RetryConfig ε) (op : Nat → Except ε α) :
    ∀ (fuel attempt : Nat) (last : Option ε) (k : Nat) (d : ℚ),
      (k, d) ∈ (retryAux cfg op fuel attempt last).delays →
      attempt + 1 ≤ k ∧ k ≤ cfg.max_attempts ∧ d = calculateDelay (k - 1) cfg := by
  intro fuel
  induction fuel with
  | zero => intro attempt last k d h; simp [retryAux] at h
  | succ n ih =>
    intro attempt last k d h
    simp only [retryAux] at h
    cases hop : op attempt with
    | ok v => rw [hop] at h; simp at h
    | error e =>
      rw [hop] at h
      by_cases hc : shouldRetryErr cfg e = false ∨ cfg.max_attempts ≤ attempt
      · simp [if_pos hc] at h
      · simp only [if_neg hc, List.mem_cons] at h
        rcases h with h | h
        · obtain ⟨hk, hd⟩ := Prod.mk.injEq _ _ _ _ ▸ h
          have hmax : attempt < cfg.max_attempts := by
            by_contra hle
            exact hc (Or.inr (le_of_not_lt hle))
          subst hk
          refine ⟨le_refl _, by omega, ?_⟩
          simpa using hd
        · have h2 := ih (attempt + 1) (some e) k d h
          exact ⟨by omega, h2.2.1, h2.2.2⟩

/-- Claim C6 (amended): for every attempt k with 1 < k <= max_attempts
that the loop sleeps before, the delay equals base_delay when k = 2 and
min(max_delay, base_delay * exponential_base^(k-2) * backoff_multiplier)
when k > 2; the clamping to max_delay is not applied to the k = 2 delay,
and the exponent is offset by one from the claimed formula with an extra
backoff_multiplier factor. -/
theorem retry_delay_formula {ε α : Type} (cfg : RetryConfig ε) (op : Nat → Except ε α)
    (k : Nat) (d : ℚ) (h : (k, d) ∈ (retryWithBackoff cfg op).delays) :
    2 ≤ k ∧ k ≤ cfg.max_attempts ∧
    d = if k = 2 then cfg.base_delay
        else min (cfg.base_delay * cfg.exponential_base ^ (k - 2) * cfg.backoff_multiplier)
          cfg.max_delay := by
  have h2 := retryAux_delays cfg op cfg.max_attempts 1 none k d h
  obtain ⟨hk1, hk2, hd⟩ := h2
  refine ⟨hk1, hk2, ?_⟩
  rw [hd]
  unfold calculateDelay
  by_cases hk : k = 2
  · subst hk; simp
  · have hne : ¬(k - 1 = 1) := by omega
    have hsub : k - 1 - 1 = k - 2 := by omega
    simp [hne, hk, hsub]

/-- Witness for claim C6 (amended): the sleep before attempt 3 of the
always-failing run is 3 = min(30, 1 * 2^1 * (3/2)). -/
theorem retry_delay_formula_witness :
    2 ≤ 3 ∧ 3 ≤ defaultRetryConfig.max_attempts ∧
    (3 : ℚ) = if 3 = 2 then defaultRetryConfig.base_delay
        else min (defaultRetryConfig.base_delay *
            defaultRetryConfig.exponential_base ^ (3 - 2) *
            defaultRetryConfig.backoff_multiplier)
          defaultRetryConfig.max_delay := by
  have hmem : ((3 : Nat), (3 : ℚ)) ∈ (retryWithBackoff defaultRetryConfig opAlwaysFail).delays := by
    have h : (retryWithBackoff defaultRetryConfig opAlwaysFail).delays =
        [(2, calculateDelay 1 defaultRetryConfig), (3, calculateDelay 2 defaultRetryConfig)] := by
      simp [retryWithBackoff, retryAux, defaultRetryConfig, shouldRetryErr, opAlwaysFail]
    rw [h]
    have h2 : calculateDelay 2 defaultRetryConfig = 3 := by
      unfold calculateDelay
      norm_num [defaultRetryConfig]
    rw [h2]
    simp
  exact retry_delay_formula defaultRetryConfig opAlwaysFail 3 3 hmem

/-! ## Claim C2 -/

/-- Driving a closed breaker through exactly enough failing calls to
reach its threshold opens it, with the failure count at the threshold
and the last failure timestamp taken from the final call; the
constructor parameters are untouched. -/
theorem runFailures_reaches_threshold :
    ∀ (ts : List ℚ) (cb : CircuitBreaker), cb.state = CBState.closed →
      cb.failure_count + ts.length = cb.failure_threshold → ts ≠ [] →
      (runFailures cb ts).state = CBState.opened ∧
      (runFailures cb ts).failure_count = cb.failure_threshold ∧
      (runFailures cb ts).last_failure_time = ts.getLast? ∧
      (runFailures cb ts).failure_threshold = cb.failure_threshold ∧
      (runFailures cb ts).recovery_timeout = cb.recovery_timeout := by
  intro ts
  induction ts with
  | nil => intro cb _ _ hne; exact absurd rfl hne
  | cons t rest ih =>
    intro cb hclosed hcount _
    have hstep : (callCB cb t (Except.error () : Except Unit Unit)).cb = cbOnFailure cb t := by
      have : ¬cb.state = CBState.opened := by rw [hclosed]; intro h; cases h
      simp [callCB, this, cbRunOp]
    have hrun : runFailures cb (t :: rest) = runFailures (cbOnFailure cb t) rest := by
      simp [runFailures, List.foldl_cons, hstep]
    cases rest with
    | nil =>
      have hth : cb.failure_threshold ≤ cb.failure_count + 1 := by
        simp at hcount; omega
      have hcb : cbOnFailure cb t =
          { cb with
              failure_count := cb.failure_count + 1
              last_failure_time := some t
              state := CBState.opened } := by
        simp [cbOnFailure, hth]
      rw [hrun, hcb]
      simp at hcount
      refine ⟨rfl, by simpa using hcount, rfl, rfl, rfl⟩
    | cons t2 rest2 =>
      have hlt : cb.failure_count + 1 < cb.failure_threshold := by
        simp at hcount; omega
      have hcb : cbOnFailure cb t =
          { cb with
              failure_count := cb.failure_count + 1
              last_failure_time := some t } := by
        simp [cbOnFailure]
        omega
      rw [hrun, hcb]
      have h2 := ih
        { cb with
            failure_count := cb.failure_count + 1
            last_failure_time := some t }
        (by simpa using hclosed) (by simp at hcount ⊢; omega) (by simp)
      simpa [List.getLast?_cons_cons] using h2

/-- Claim C2: after N consecutive failed calls through a fresh breaker
with threshold N, a further call made before recovery_timeout has passed
since the last failure fails fast with the open error, does not invoke
the wrapped operation, and leaves the breaker unchanged in the open
state. -/
theorem circuit_breaker_fast_fail {ε α : Type} (N : Nat) (rt : ℚ) (ts : List ℚ)
    (now tN : ℚ) (op : Except ε α)
    (hN : 1 ≤ N) (hlen : ts.length = N) (hlast : ts.getLast? = some tN)
    (hnow : now - tN < rt) :
    (runFailures (initCircuitBreaker N rt) ts).state = CBState.opened ∧
    callCB (runFailures (initCircuitBreaker N rt) ts) now op =
      ⟨CBResult.openError, runFailures (initCircuitBreaker N rt) ts, false, false⟩ := by
  have hne : ts ≠ [] := by
    intro h; rw [h] at hlen; simp at hlen; omega
  have h := runFailures_reaches_threshold ts (initCircuitBreaker N rt) rfl
    (by simp [initCircuitBreaker, hlen]) hne
  obtain ⟨hstate, _, htime, _, hrt⟩ := h
  refine ⟨hstate, ?_⟩
  have hreset : shouldAttemptReset (runFailures (initCircuitBreaker N rt) ts) now = false := by
    rw [shouldAttemptReset]
    rw [htime, hlast]
    simp only [timeSinceFailure, htime, hlast]
    simp only [hrt]
    simp [initCircuitBreaker]
    linarith
  simp [callCB, hstate, hreset]

/-- Witness for claim C2: threshold 2, two failures at times 0 and 1,
and a call at time 30 with a 60-second recovery timeout. -/
theorem circuit_breaker_fast_fail_witness :
    (runFailures (initCircuitBreaker 2 60) [0, 1]).state = CBState.opened ∧
    callCB (runFailures (initCircuitBreaker 2 60) [0, 1]) 30 (Except.ok 5 : Except Unit Nat) =
      ⟨CBResult.openError, runFailures (initCircuitBreaker 2 60) [0, 1], false, false⟩ :=
  circuit_breaker_fast_fail 2 60 [0, 1] 30 1 (Except.ok 5) (by norm_num) rfl rfl
    (by norm_num)

/-! ## Claim C3 -/

/-- A fresh breaker satisfies the reachability invariant. -/
theorem cbInv_init (N : Nat) (rt : ℚ) : CBInv (initCircuitBreaker N rt) := by
  intro h
  rcases h with h | h <;> cases h

/-- Every call preserves the reachability invariant. -/
theorem cbInv_call {ε α : Type} (cb : CircuitBreaker) (now : ℚ) (op : Except ε α)
    (hinv : CBInv cb) : CBInv (callCB cb now op).cb := by
  have hsucc : ∀ c : CircuitBreaker, c.state ≠ CBState.opened → CBInv (cbOnSuccess c) := by
    intro c hc hs
    obtain ⟨th2, rt2, cnt, lft, st⟩ := c
    cases st <;> simp_all [cbOnSuccess]
  have hfail : ∀ c : CircuitBreaker,
      ((c.state = CBState.opened ∨ c.state = CBState.halfOpen) →
        c.failure_threshold ≤ c.failure_count) →
      CBInv (cbOnFailure c now) := by
    intro c hc hs
    obtain ⟨th2, rt2, cnt, lft, st⟩ := c
    by_cases hth : th2 ≤ cnt + 1
    · simp [cbOnFailure, hth]
    · simp only [cbOnFailure] at hs ⊢
      simp [hth] at hs ⊢
      have := hc (by simpa using hs)
      simp at this
      omega
  unfold callCB
  by_cases hop : cb.state = CBState.opened
  · by_cases hr : shouldAttemptReset cb now = true
    · simp only [hop, if_true, hr]
      cases op with
      | ok v => exact hsucc _ (by simp)
      | error e =>
        simp only [cbRunOp]
        refine hfail _ fun _ => ?_
        exact (hinv (Or.inl hop)).1
    · simp only [hop, if_true, Bool.not_eq_true] at hr ⊢
      simp only [hr, Bool.false_eq_true, if_false]
      exact hinv
  · simp only [hop, if_false]
    cases op with
    | ok v => exact hsucc cb hop
    | error e =>
      simp only [cbRunOp]
      refine hfail cb fun hs => ?_
      exact (hinv hs).1

/-- Claim C3: in one CircuitBreaker.call step, (i) the open state is
only entered when the failure count has reached the threshold, (ii) the
half-open transition is taken exactly on a call that arrives while open
after recovery_timeout has elapsed since the last recorded failure, and
such a call invokes the operation, (iii) a successful operation run
while half-open closes the breaker and zeroes the failure count, and
(iv) a failed operation run while half-open reopens the breaker and
restamps the failure time; (ii) and (iv) hold on breakers satisfying the
reachability invariant. -/
theorem circuit_breaker_transitions {ε α : Type} (cb : CircuitBreaker) (now : ℚ)
    (op : Except ε α) (hinv : CBInv cb) :
    ((callCB cb now op).cb.state = CBState.opened →
      cb.state = CBState.opened ∨
        cb.failure_threshold ≤ (callCB cb now op).cb.failure_count) ∧
    ((callCB cb now op).went_half_open = true →
      cb.state = CBState.opened ∧ (callCB cb now op).invoked = true ∧
      ∃ t, cb.last_failure_time = some t ∧ cb.recovery_timeout ≤ now - t) ∧
    (cb.state = CBState.opened → ∀ t, cb.last_failure_time = some t →
      cb.recovery_timeout ≤ now - t →
      (callCB cb now op).went_half_open = true ∧ (callCB cb now op).invoked = true) ∧
    (∀ v, op = Except.ok v →
      (cb.state = CBState.halfOpen ∨ (callCB cb now op).went_half_open = true) →
      (callCB cb now op).cb.state = CBState.closed ∧
      (callCB cb now op).cb.failure_count = 0) ∧
    (∀ e, op = Except.error e →
      (cb.state = CBState.halfOpen ∨ (callCB cb now op).went_half_open = true) →
      (callCB cb now op).cb.state = CBState.opened ∧
      (callCB cb now op).cb.last_failure_time = some now) := by
  by_cases hop : cb.state = CBState.opened
  · by_cases hr : shouldAttemptReset cb now = true
    · have hout : callCB cb now op =
          cbRunOp { cb with state := CBState.halfOpen } now op true := by
        simp [callCB, hop, hr]
      have hth := (hinv (Or.inl hop)).1
      have hsome := (hinv (Or.inl hop)).2
      obtain ⟨t0, ht0⟩ := Option.isSome_iff_exists.mp hsome
      have htime : cb.recovery_timeout ≤ now - t0 := by
        simp [shouldAttemptReset, timeSinceFailure, ht0] at hr
        exact hr
      cases op with
      | ok v =>
        simp only [hout, cbRunOp]
        refine ⟨?_, ?_, ?_, ?_, ?_⟩
        · intro h; exact Or.inl hop
        · intro _; exact ⟨hop, trivial, t0, ht0, htime⟩
        · intro _ t ht hle; exact ⟨trivial, trivial⟩
        · intro w hw _; simp [cbOnSuccess]
        · intro e he _; cases he
      | error e =>
        simp only [hout, cbRunOp]
        have hopen : cbOnFailure { cb with state := CBState.halfOpen } now =
            { cb with
                failure_count := cb.failure_count + 1
                last_failure_time := some now
                state := CBState.opened } := by
          simp [cbOnFailure]
          omega
        refine ⟨?_, ?_, ?_, ?_, ?_⟩
        · intro _; exact Or.inl hop
        · intro _; exact ⟨hop, trivial, t0, ht0, htime⟩
        · intro _ t ht hle; exact ⟨trivial, trivial⟩
        · intro w hw _; cases hw
        · intro e2 he2 _
          rw [hopen]
          exact ⟨rfl, rfl⟩
    · have hout : callCB cb now op = ⟨CBResult.openError, cb, false, false⟩ := by
        simp only [Bool.not_eq_true] at hr
        simp [callCB, hop, hr]
      simp only [hout]
      refine ⟨?_, ?_, ?_, ?_, ?_⟩
      · intro _; exact Or.inl hop
      · intro h; cases h
      · intro _ t ht hle
        exfalso
        have : shouldAttemptReset cb now = true := by
          simp [shouldAttemptReset, timeSinceFailure, ht]
          exact hle
        exact hr this
      · intro w hw hcase
        rcases hcase with hcase | hcase
        · rw [hop] at hcase; cases hcase
        · cases hcase
      · intro e he hcase
        rcases hcase with hcase | hcase
        · rw [hop] at hcase; cases hcase
        · cases hcase
  · have hout : callCB cb now op = cbRunOp cb now op false := by
      simp [callCB, hop]
    cases op with
    | ok v =>
      simp only [hout, cbRunOp]
      refine ⟨?_, ?_, ?_, ?_, ?_⟩
      · intro h
        exfalso
        by_cases hh : cb.state = CBState.halfOpen <;> simp [cbOnSuccess, hh] at h
        · exact hop h
      · intro h; cases h
      · intro h; exact absurd h hop
      · intro w hw hcase
        rcases hcase with hcase | hcase
        · simp [cbOnSuccess, hcase]
        · cases hcase
      · intro e he _; cases he
    | error e =>
      simp only [hout, cbRunOp]
      refine ⟨?_, ?_, ?_, ?_, ?_⟩
      · intro h
        by_cases hth : cb.failure_threshold ≤ cb.failure_count + 1
        · right; simp [cbOnFailure, hth]
        · exfalso
          simp [cbOnFailure, hth] at h
          exact hop h
      · intro h; cases h
      · intro h; exact absurd h hop
      · intro w hw _; cases hw
      · intro e2 he2 hcase
        rcases hcase with hcase | hcase
        · have hth := (hinv (Or.inr hcase)).1
          have : cb.failure_threshold ≤ cb.failure_count + 1 := by omega
          simp [cbOnFailure, this]
        · cases hcase

/-- Witness for claim C3: a failed call on an open breaker whose
recovery timeout has elapsed reopens it and restamps the failure time. -/
theorem circuit_breaker_transitions_witness :
    (callCB ⟨2, 60, 2, some 0, CBState.opened⟩ 100 (Except.error () : Except Unit Nat)).cb.state
      = CBState.opened ∧
    (callCB ⟨2, 60, 2, some 0, CBState.opened⟩ 100
      (Except.error () : Except Unit Nat)).cb.last_failure_time = some 100 := by
  have h := circuit_breaker_transitions ⟨2, 60, 2, some 0, CBState.opened⟩ 100
    (Except.error () : Except Unit Nat) (by intro _; exact ⟨by norm_num, rfl⟩)
  have hw := (h.2.2.1 rfl 0 rfl (by norm_num)).1
  exact h.2.2.2.2 () rfl (Or.inr hw)

/-! ## Claim C4 -/

/-- On a queue of undelivered results the delivery loop marks a maximal
prefix of successful sends, counts them, breaks at the first failing
entry and leaves the suffix untouched; the final filter keeps exactly
that suffix. -/
theorem deliverLoop_split {α : Type} (sendOk : TaskResult α → Bool) :
    ∀ q : List (TaskResult α), (∀ r ∈ q, r.delivered = false) →
      ∃ p q2, q = p ++ q2 ∧ (∀ r ∈ p, sendOk r = true) ∧
        (deliverLoop sendOk q).1 = p.length ∧
        (deliverLoop sendOk q).2 =
          p.map (fun r => { r with delivered := true }) ++ q2 ∧
        (q2 = [] ∨ ∃ r rs, q2 = r :: rs ∧ sendOk r = false) ∧
        (deliverLoop sendOk q).2.filter (fun r => !r.delivered) = q2 := by
  intro q
  induction q with
  | nil =>
    intro _
    exact ⟨[], [], rfl, by simp, rfl, rfl, Or.inl rfl, rfl⟩
  | cons r rs ih =>
    intro hnd
    have hr : r.delivered = false := hnd r (List.mem_cons_self r rs)
    have hrs : ∀ x ∈ rs, x.delivered = false := fun x hx => hnd x (List.mem_cons_of_mem r hx)
    by_cases hsend : sendOk r = true
    · obtain ⟨p, q2, hsplit, hps, hcount, hlist, hbr, hfilter⟩ := ih hrs
      refine ⟨r :: p, q2, by rw [hsplit]; rfl, ?_, ?_, ?_, hbr, ?_⟩
      · intro x hx
        rcases List.mem_cons.mp hx with hx | hx
        · rw [hx]; exact hsend
        · exact hps x hx
      · simp [deliverLoop, hr, hsend, hcount]
      · simp [deliverLoop, hr, hsend, hlist]
      · have hstep : (deliverLoop sendOk (r :: rs)).2 =
            { r with delivered := true } :: (deliverLoop sendOk rs).2 := by
          simp [deliverLoop, hr, hsend]
        rw [hstep, List.filter_cons]
        simp [hfilter]
    · have hsend2 : sendOk r = false := by
        cases h2 : sendOk r
        · rfl
        · exact absurd h2 hsend
      refine ⟨[], r :: rs, rfl, by simp, ?_, ?_, Or.inr ⟨r, rs, rfl, hsend2⟩, ?_⟩
      · simp [deliverLoop, hr, hsend2]
      · simp [deliverLoop, hr, hsend2]
      · simp only [deliverLoop, hr, hsend2]
        simp only [Bool.false_eq_true, if_false]
        exact List.filter_eq_self.mpr (by
          intro x hx
          simp [hnd x hx])

/-- A queue that is empty or starts with a failing undelivered entry is
left exactly as it is by another run of the delivery loop. -/
theorem deliverLoop_stuck {α : Type} (sendOk : TaskResult α → Bool)
    (q2 : List (TaskResult α)) (hnd : ∀ r ∈ q2, r.delivered = false)
    (hbr : q2 = [] ∨ ∃ r rs, q2 = r :: rs ∧ sendOk r = false) :
    deliverLoop sendOk q2 = (0, q2) ∧
    q2.filter (fun r => !r.delivered) = q2 := by
  constructor
  · rcases hbr with hbr | ⟨r, rs, hq, hs⟩
    · rw [hbr]; rfl
    · subst hq
      have hr : r.delivered = false := hnd r (List.mem_cons_self r rs)
      simp [deliverLoop, hr, hs]
  · exact List.filter_eq_self.mpr (fun x hx => by simp [hnd x hx])

/-- Claim C4: for an online session whose queued results are all
undelivered, deliver_pending delivers a maximal prefix of the queue in
order, removes exactly the delivered entries, stops at the first send
failure leaving the remaining entries queued in order, and a second call
with no new results delivers 0 and leaves the registry unchanged. -/
theorem deliver_pending_spec {α : Type} (reg : SessionRegistry α) (uid : String)
    (sendOk : TaskResult α → Bool) (s : UserSession α)
    (hs : lookupAssoc uid reg = some s) (hon : s.is_online = true)
    (hws : s.has_websocket = true)
    (hnd : ∀ r ∈ s.pending_results, r.delivered = false) :
    ∃ p q2, s.pending_results = p ++ q2 ∧
      (∀ r ∈ p, sendOk r = true) ∧
      (deliverPendingResults reg uid sendOk).1 = p.length ∧
      lookupAssoc uid (deliverPendingResults reg uid sendOk).2 =
        some { s with pending_results := q2 } ∧
      (q2 = [] ∨ ∃ r rs, q2 = r :: rs ∧ sendOk r = false) ∧
      deliverPendingResults (deliverPendingResults reg uid sendOk).2 uid sendOk =
        (0, (deliverPendingResults reg uid sendOk).2) := by
  obtain ⟨su, so, sw, spt, spr⟩ := s
  replace hws : sw = true := hws
  subst hws
  obtain ⟨p, q2, hsplit, hps, hcount, hlist, hbr, hfilter⟩ :=
    deliverLoop_split sendOk spr hnd
  have hq2nd : ∀ r ∈ q2, r.delivered = false := by
    intro r hrm
    refine hnd r ?_
    show r ∈ spr
    rw [hsplit]
    exact List.mem_append_right p hrm
  have hout : deliverPendingResults reg uid sendOk =
      ((deliverLoop sendOk spr).1,
        updateAssoc uid ⟨su, so, true, spt, q2⟩ reg) := by
    simp only [deliverPendingResults, hs, if_true]
    rw [hfilter]
  have hlook : lookupAssoc uid (updateAssoc uid ⟨su, so, true, spt, q2⟩ reg) =
      some (⟨su, so, true, spt, q2⟩ : UserSession α) := by
    rw [updateAssoc, lookup_updateWith_self, hs]
    rfl
  refine ⟨p, q2, hsplit, hps, by rw [hout]; exact hcount, by rw [hout]; exact hlook,
    hbr, ?_⟩
  obtain ⟨hstuck, hfilter2⟩ := deliverLoop_stuck sendOk q2 hq2nd hbr
  rw [hout]
  simp only [deliverPendingResults, hlook, if_true, hstuck, hfilter2]
  rw [updateAssoc, updateAssoc, updateWith_updateWith]
  rfl

/-- Witness for claim C4: the concrete online session with three queued
results and a send oracle failing on the second; the second call
delivers nothing and leaves the registry fixed. -/
theorem deliver_pending_spec_witness :
    deliverPendingResults (deliverPendingResults regSession "u" sendNotB).2 "u" sendNotB =
      (0, (deliverPendingResults regSession "u" sendNotB).2) := by
  obtain ⟨p, q2, h1, h2, h3, h4, h5, h6⟩ :=
    deliver_pending_spec regSession "u" sendNotB sessionOnline rfl rfl rfl
      (by intro r hrm; simp [sessionOnline] at hrm; rcases hrm with h | h | h <;> simp [h])
  exact h6

/-! ## Claim C9 -/

/-- Progress lemma for the retry loop: starting from any attempt whose
predecessors (from the current attempt on) all failed retryably, the run
terminates at the first decisive attempt with the records the source
appends there. -/
theorem retryAux_reach {ε α : Type} (cfg : RetryConfig ε) (op : Nat → Except ε α) (j : Nat)
    (hj : j ≤ cfg.max_attempts) :
    ∀ (fuel attempt : Nat) (last : Option ε),
      attempt + fuel = cfg.max_attempts + 1 →
      1 ≤ attempt → attempt ≤ j →
      (∀ i, attempt ≤ i → i < j → ∃ e, op i = Except.error e ∧ shouldRetryErr cfg e = true) →
      ((1 < attempt → ∃ e, op (attempt - 1) = Except.error e ∧ last = some e) ∧
        (attempt = 1 → last = none)) →
      (∀ v, op j = Except.ok v →
        (retryAux cfg op fuel attempt last).result = RetryResult.ok v ∧
        (1 < j → ∃ e, op (j - 1) = Except.error e ∧
          (retryAux cfg op fuel attempt last).records =
            [⟨e, j, some "retry_with_backoff", true⟩]) ∧
        (j = 1 → (retryAux cfg op fuel attempt last).records = [])) ∧
      (∀ e, op j = Except.error e →
        (shouldRetryErr cfg e = false ∨ j = cfg.max_attempts) →
        (retryAux cfg op fuel attempt last).result = RetryResult.raised e ∧
        (retryAux cfg op fuel attempt last).records = [⟨e, j, none, false⟩]) := by
  intro fuel
  induction fuel with
  | zero =>
    intro attempt last hfuel h1 haj _ _
    omega
  | succ n ih =>
    intro attempt last hfuel h1 haj hfail hlast
    by_cases heq : attempt = j
    · subst heq
      constructor
      · intro v hok
        simp only [retryAux, hok]
        refine ⟨trivial, ?_, ?_⟩
        · intro hgt
          obtain ⟨e, he, hl⟩ := hlast.1 hgt
          exact ⟨e, he, by simp [hl, hgt]⟩
        · intro hone
          have hl := hlast.2 hone
          simp [hl]
      · intro e herr hdec
        have hcond : shouldRetryErr cfg e = false ∨ cfg.max_attempts ≤ attempt := by
          rcases hdec with h | h
          · exact Or.inl h
          · exact Or.inr (le_of_eq h.symm)
        simp only [retryAux, herr, if_pos hcond]
        exact ⟨trivial, trivial⟩
    · have hlt : attempt < j := lt_of_le_of_ne haj heq
      obtain ⟨e0, he0, hr0⟩ := hfail attempt (le_refl attempt) hlt
      have hcond : ¬(shouldRetryErr cfg e0 = false ∨ cfg.max_attempts ≤ attempt) := by
        intro h
        rcases h with h | h
        · rw [hr0] at h; cases h
        · omega
      have hstep : retryAux cfg op (n + 1) attempt last =
          ⟨(retryAux cfg op n (attempt + 1) (some e0)).result,
            (retryAux cfg op n (attempt + 1) (some e0)).records,
            (attempt + 1, calculateDelay attempt cfg) ::
              (retryAux cfg op n (attempt + 1) (some e0)).delays⟩ := by
        simp [retryAux, he0, hcond]
      have hres := ih (attempt + 1) (some e0) (by omega) (by omega) (by omega)
        (fun i hi1 hi2 => hfail i (by omega) hi2)
        ⟨fun _ => ⟨e0, by simpa using he0, rfl⟩, fun h => by omega⟩
      rw [hstep]
      exact hres

/-- Claim C9: whenever the operation first succeeds at attempt j after
j-1 retryable failures, retry_with_backoff returns the success value and
appends exactly one Error Record with success true and retry count j (no
record when j = 1); and when attempt j fails with the predicate
rejecting the error or the budget exhausted, the error is re-raised and
exactly one record with success false and retry count j is appended. -/
theorem retry_ledger {ε α : Type} (cfg : RetryConfig ε) (op : Nat → Except ε α) (j : Nat)
    (h1 : 1 ≤ j) (hj : j ≤ cfg.max_attempts)
    (hfail : ∀ i, 1 ≤ i → i < j → ∃ e, op i = Except.error e ∧ shouldRetryErr cfg e = true) :
    (∀ v, op j = Except.ok v →
      (retryWithBackoff cfg op).result = RetryResult.ok v ∧
      (1 < j → ∃ e, op (j - 1) = Except.error e ∧
        (retryWithBackoff cfg op).records = [⟨e, j, some "retry_with_backoff", true⟩]) ∧
      (j = 1 → (retryWithBackoff cfg op).records = [])) ∧
    (∀ e, op j = Except.error e →
      (shouldRetryErr cfg e = false ∨ j = cfg.max_attempts) →
      (retryWithBackoff cfg op).result = RetryResult.raised e ∧
      (retryWithBackoff cfg op).records = [⟨e, j, none, false⟩]) := by
  have h := retryAux_reach cfg op j hj cfg.max_attempts 1 none (by omega) (le_refl 1) h1
    hfail ⟨fun h2 => by omega, fun _ => rfl⟩
  exact h

/-- Witness for claim C9, Scenario B: failures on attempts 1 and 2, then
success with 42 on attempt 3, with the default three-attempt budget. -/
theorem retry_ledger_witness :
    (retryWithBackoff defaultRetryConfig opThirdTime).result = RetryResult.ok 42 ∧
    (retryWithBackoff defaultRetryConfig opThirdTime).records =
      [⟨(), 3, some "retry_with_backoff", true⟩] := by
  have h := (retry_ledger defaultRetryConfig opThirdTime 3 (by norm_num)
    (by norm_num [defaultRetryConfig])
    (by intro i hi1 hi2; interval_cases i <;> exact ⟨(), rfl, rfl⟩)).1 42 rfl
  obtain ⟨hres, hrec, _⟩ := h
  obtain ⟨e, _, hr⟩ := hrec (by norm_num)
  cases e
  exact ⟨hres, hr⟩

/-! ## Claim C7 -/

/-- Counterexample to claim C7 as stated: with timeout 0, which is
strictly less than the elapsed time at which the task completes, the
truthiness test of the source disables the timeout guard entirely, so
wait returns the stored result of the eventually completed task instead
of raising a timeout error, and the task ends completed, not
cancelled. -/
theorem wait_zero_timeout_counterexample :
    (waitForTask regWait "t" (some 0) [(taskRunning, 1), (taskDone, 2)]).1 =
      WaitOutcome.result (some 42) ∧
    statusOf (waitForTask regWait "t" (some 0) [(taskRunning, 1), (taskDone, 2)]).2 "t" =
      some TaskStatus.completed ∧
    (0 : ℚ) < 1 := by
  refine ⟨rfl, rfl, by norm_num⟩

/-- The poll loop on a non-terminal task walks the observations in
order; the first firing of the timeout guard cancels the currently
observed task and reports the timeout, and the first terminal
observation reached without a firing is dispatched on its status. -/
theorem waitLoop_split {α : Type} (timeout : Option ℚ) :
    ∀ (pre : List (BackgroundTask α × ℚ)) (t tk : BackgroundTask α) (ek : ℚ)
      (rest : List (BackgroundTask α × ℚ)),
      (t.status = TaskStatus.running ∨ t.status = TaskStatus.pending) →
      (∀ pr ∈ pre,
        (pr.1.status = TaskStatus.running ∨ pr.1.status = TaskStatus.pending) ∧
        fireTimeout timeout pr.2 = false) →
      (fireTimeout timeout ek = true →
        (tk.status = TaskStatus.running ∨ tk.status = TaskStatus.pending) →
        waitLoop timeout t (pre ++ (tk, ek) :: rest) =
          (WaitOutcome.timeoutError, { tk with status := TaskStatus.cancelled })) ∧
      (fireTimeout timeout ek = false → isTerminal tk.status = true →
        waitLoop timeout t (pre ++ (tk, ek) :: rest) = (waitDispatch tk, tk)) := by
  intro pre
  induction pre with
  | nil =>
    intro t tk ek rest hts _
    constructor
    · intro hfire htk
      have hcancel : applyCancel tk = { tk with status := TaskStatus.cancelled } := by
        rcases htk with h | h <;> simp [applyCancel, isTerminal, h]
      simp only [List.nil_append, waitLoop, if_pos hts, hfire, if_true, hcancel]
    · intro hfire hterm
      have hcond : ¬(tk.status = TaskStatus.running ∨ tk.status = TaskStatus.pending) := by
        cases h : tk.status <;> simp [h] <;> rw [h] at hterm <;> cases hterm
      simp only [List.nil_append, waitLoop, if_pos hts, hfire, Bool.false_eq_true, if_false]
      cases rest with
      | nil => simp [waitLoop, hcond]
      | cons ob rest2 =>
        obtain ⟨t2, e2⟩ := ob
        simp [waitLoop, hcond]
  | cons ob pre2 ih =>
    intro t tk ek rest hts hpre
    obtain ⟨t1, e1⟩ := ob
    have h1 := hpre (t1, e1) (List.mem_cons_self _ _)
    have hpre2 : ∀ pr ∈ pre2,
        (pr.1.status = TaskStatus.running ∨ pr.1.status = TaskStatus.pending) ∧
        fireTimeout timeout pr.2 = false :=
      fun pr hpr => hpre pr (List.mem_cons_of_mem _ hpr)
    have hrec := ih t1 tk ek rest h1.1 hpre2
    have hstep : waitLoop timeout t (((t1, e1) :: pre2) ++ (tk, ek) :: rest) =
        waitLoop timeout t1 (pre2 ++ (tk, ek) :: rest) := by
      simp only [List.cons_append, waitLoop, if_pos hts, h1.2, Bool.false_eq_true, if_false]
      rfl
    rw [hstep]
    exact hrec

/-- Claim C7 (amended): for a registered task observed pending or
running and a nonzero timeout, if the timeout guard fires at an
observation where the task is still pending or running (the timeout
elapses strictly before the task completes), wait_for_task raises the
timeout error and leaves the task cancelled; and when the task is first
observed terminal without the guard having fired, wait_for_task returns
the stored result if it completed, raises the stored error if it
failed, and raises the cancellation error if it was cancelled.  A zero
timeout is excluded because the truthiness test of the source disables
the guard for it. -/
theorem wait_for_task_spec {α : Type} (reg : TaskRegistry α) (id : String)
    (t : BackgroundTask α) (hreg : lookupAssoc id reg = some t)
    (pre : List (BackgroundTask α × ℚ)) (tk : BackgroundTask α) (ek : ℚ)
    (rest : List (BackgroundTask α × ℚ)) (timeout : Option ℚ)
    (ht : t.status = TaskStatus.running ∨ t.status = TaskStatus.pending)
    (hpre : ∀ pr ∈ pre,
      (pr.1.status = TaskStatus.running ∨ pr.1.status = TaskStatus.pending) ∧
      fireTimeout timeout pr.2 = false) :
    (∀ q, timeout = some q → q ≠ 0 → q < ek →
      (tk.status = TaskStatus.running ∨ tk.status = TaskStatus.pending) →
      waitForTask reg id timeout (pre ++ (tk, ek) :: rest) =
        (WaitOutcome.timeoutError,
          updateAssoc id { tk with status := TaskStatus.cancelled } reg) ∧
      statusOf (waitForTask reg id timeout (pre ++ (tk, ek) :: rest)).2 id =
        some TaskStatus.cancelled) ∧
    (fireTimeout timeout ek = false → isTerminal tk.status = true →
      waitForTask reg id timeout (pre ++ (tk, ek) :: rest) =
        (waitDispatch tk, updateAssoc id tk reg) ∧
      (tk.status = TaskStatus.completed →
        waitDispatch tk = WaitOutcome.result tk.result) ∧
      (tk.status = TaskStatus.failed →
        waitDispatch tk = WaitOutcome.failedError tk.error) ∧
      (tk.status = TaskStatus.cancelled →
        waitDispatch tk = WaitOutcome.cancelledError)) := by
  obtain ⟨hfire, hterm⟩ := waitLoop_split timeout pre t tk ek rest ht hpre
  constructor
  · intro q hq hq0 hqe htk
    have hf : fireTimeout timeout ek = true := by
      rw [hq]
      simp [fireTimeout, hq0]
      exact hqe
    have hl := hfire hf htk
    have hout : waitForTask reg id timeout (pre ++ (tk, ek) :: rest) =
        (WaitOutcome.timeoutError,
          updateAssoc id { tk with status := TaskStatus.cancelled } reg) := by
      simp only [waitForTask, hreg, hl]
    refine ⟨hout, ?_⟩
    rw [hout]
    simp only [statusOf, updateAssoc, lookup_updateWith_self, hreg]
    rfl
  · intro hf htm
    have hl := hterm hf htm
    have hout : waitForTask reg id timeout (pre ++ (tk, ek) :: rest) =
        (waitDispatch tk, updateAssoc id tk reg) := by
      simp only [waitForTask, hreg, hl]
    refine ⟨hout, ?_, ?_, ?_⟩ <;> intro hst <;> simp [waitDispatch, hst]

/-- Witness for claim C7 (amended): a one-second timeout fires at the
observation with elapsed time 3/2 while the task still runs; the task
is left cancelled. -/
theorem wait_for_task_spec_witness :
    statusOf (waitForTask regWait "t" (some 1)
      [(taskRunning, 3 / 2), (taskDone, 2)]).2 "t" = some TaskStatus.cancelled := by
  have h := (wait_for_task_spec regWait "t" taskRunning rfl [] taskRunning (3 / 2)
    [(taskDone, 2)] (some 1) (Or.inl rfl) (by intro pr hpr; cases hpr)).1
    1 rfl (by norm_num) (by norm_num) (Or.inl rfl)
  exact h.2

/-! ## Claim C1 -/

theorem statusOf_updateWith {α : Type} (reg : TaskRegistry α) (id : String)
    (f : BackgroundTask α → BackgroundTask α) :
    statusOf (updateWith id f reg) id = (lookupAssoc id reg).map (fun t => (f t).status) := by
  rw [statusOf, lookup_updateWith_self]
  cases lookupAssoc id reg <;> rfl

theorem allowedStepO_refl (s : Option TaskStatus) : allowedStepO s s := by
  cases s with
  | none => trivial
  | some a => exact Or.inl rfl

/-- Events addressed to another task do not change this task's status. -/
theorem statusOf_step_other {α : Type} (reg : TaskRegistry α) (e : TMEvent α) (id : String)
    (hid : eventId e ≠ id) : statusOf (stepEvent reg e) id = statusOf reg id := by
  cases e with
  | start id2 =>
    rw [stepEvent, statusOf, lookup_updateWith_other id2 id _ reg (Ne.symm hid), statusOf]
  | finishOk id2 v =>
    rw [stepEvent, statusOf, lookup_updateWith_other id2 id _ reg (Ne.symm hid), statusOf]
  | finishErr id2 m =>
    rw [stepEvent, statusOf, lookup_updateWith_other id2 id _ reg (Ne.symm hid), statusOf]
  | cancel id2 =>
    rw [stepEvent, cancelTask]
    cases hl : lookupAssoc id2 reg with
    | none => rfl
    | some tv =>
      by_cases hterm : isTerminal tv.status
      · simp [hterm]
      · simp only [hterm, Bool.false_eq_true, if_false]
        rw [statusOf, lookup_updateWith_other id2 id _ reg (Ne.symm hid), statusOf]
  | progress id2 p =>
    rw [stepEvent, updateProgress, statusOf,
      lookup_updateWith_other id2 id _ reg (Ne.symm hid), statusOf]

/-- A run tag of an event addressed to another task is empty. -/
theorem runTag_other {α : Type} (e : TMEvent α) (id : String) (hid : eventId e ≠ id) :
    runTag id e = none := by
  cases e <;> simp [runTag, eventId] at hid ⊢ <;> exact hid

theorem runTags_cons {α : Type} (id : String) (e : TMEvent α) (es : List (TMEvent α)) :
    runTags id (e :: es) = (runTag id e).toList ++ runTags id es := by
  simp only [runTags, List.filterMap_cons]
  cases runTag id e <;> rfl

theorem statusTrace_head {α : Type} (id : String) (reg : TaskRegistry α)
    (es : List (TMEvent α)) :
    (statusTrace id reg es).head? = some (statusOf reg id) := by
  cases es <;> rfl

/-- One registry mutation preserves the phase invariant and realises
only an allowed status change. -/
theorem stepGood {α : Type} (reg : TaskRegistry α) (e : TMEvent α) (id : String)
    (rem : List RunTag)
    (h : goodPhase (statusOf reg id) ((runTag id e).toList ++ rem)) :
    goodPhase (statusOf (stepEvent reg e) id) rem ∧
    allowedStepO (statusOf reg id) (statusOf (stepEvent reg e) id) := by
  by_cases hid : eventId e = id
  case neg =>
    rw [statusOf_step_other reg e id hid]
    rw [runTag_other e id hid] at h
    exact ⟨h, allowedStepO_refl _⟩
  case pos =>
    cases e with
    | start id2 =>
      rw [show eventId (TMEvent.start id2 : TMEvent α) = id2 from rfl] at hid
      subst hid
      simp only [runTag, if_pos rfl, reduceIte, Option.toList_some,
        List.singleton_append] at h
      cases hl : lookupAssoc id2 reg with
      | none =>
        have hcur : statusOf reg id2 = none := by rw [statusOf, hl]; rfl
        rw [hcur] at h
        simp [goodPhase] at h
      | some tv =>
        obtain ⟨tid, tname, tst, tprog, tres, terr, tuid⟩ := tv
        have hcur : statusOf reg id2 = some tst := by rw [statusOf, hl]; rfl
        have hnew : statusOf (stepEvent reg (TMEvent.start id2)) id2 =
            some TaskStatus.running := by
          rw [stepEvent, statusOf_updateWith, hl]; rfl
        rw [hcur] at h
        rw [hcur, hnew]
        cases tst <;>
          simp [goodPhase, ValidTags, allowedStepO, allowedStep] at h ⊢ <;>
          exact h
    | finishOk id2 v =>
      rw [show eventId (TMEvent.finishOk id2 v : TMEvent α) = id2 from rfl] at hid
      subst hid
      simp only [runTag, if_pos rfl, reduceIte, Option.toList_some,
        List.singleton_append] at h
      cases hl : lookupAssoc id2 reg with
      | none =>
        have hcur : statusOf reg id2 = none := by rw [statusOf, hl]; rfl
        rw [hcur] at h
        simp [goodPhase] at h
      | some tv =>
        obtain ⟨tid, tname, tst, tprog, tres, terr, tuid⟩ := tv
        have hcur : statusOf reg id2 = some tst := by rw [statusOf, hl]; rfl
        have hnew : statusOf (stepEvent reg (TMEvent.finishOk id2 v)) id2 =
            some TaskStatus.completed := by
          rw [stepEvent, statusOf_updateWith, hl]; rfl
        rw [hcur] at h
        rw [hcur, hnew]
        cases tst <;>
          simp [goodPhase, ValidTags, allowedStepO, allowedStep] at h ⊢ <;>
          exact h
    | finishErr id2 m =>
      rw [show eventId (TMEvent.finishErr id2 m : TMEvent α) = id2 from rfl] at hid
      subst hid
      simp only [runTag, if_pos rfl, reduceIte, Option.toList_some,
        List.singleton_append] at h
      cases hl : lookupAssoc id2 reg with
      | none =>
        have hcur : statusOf reg id2 = none := by rw [statusOf, hl]; rfl
        rw [hcur] at h
        simp [goodPhase] at h
      | some tv =>
        obtain ⟨tid, tname, tst, tprog, tres, terr, tuid⟩ := tv
        have hcur : statusOf reg id2 = some tst := by rw [statusOf, hl]; rfl
        have hnew : statusOf (stepEvent reg (TMEvent.finishErr id2 m)) id2 =
            some TaskStatus.failed := by
          rw [stepEvent, statusOf_updateWith, hl]; rfl
        rw [hcur] at h
        rw [hcur, hnew]
        cases tst <;>
          simp [goodPhase, ValidTags, allowedStepO, allowedStep] at h ⊢ <;>
          exact h
    | cancel id2 =>
      rw [show eventId (TMEvent.cancel id2 : TMEvent α) = id2 from rfl] at hid
      subst hid
      simp only [runTag, Option.toList_none, List.nil_append] at h
      cases hl : lookupAssoc id2 reg with
      | none =>
        have hstep : stepEvent reg (TMEvent.cancel id2) = reg := by
          rw [stepEvent, cancelTask, hl]
        rw [hstep]
        exact ⟨h, allowedStepO_refl _⟩
      | some tv =>
        obtain ⟨tid, tname, tst, tprog, tres, terr, tuid⟩ := tv
        have hcur : statusOf reg id2 = some tst := by rw [statusOf, hl]; rfl
        by_cases hterm : isTerminal tst = true
        · have hstep : stepEvent reg (TMEvent.cancel id2) = reg := by
            rw [stepEvent, cancelTask, hl]
            simp [hterm]
          rw [hstep]
          exact ⟨h, allowedStepO_refl _⟩
        · have hstep : stepEvent reg (TMEvent.cancel id2) =
              updateWith id2 (fun t2 => { t2 with status := TaskStatus.cancelled }) reg := by
            rw [stepEvent, cancelTask, hl]
            simp [hterm]
          have hnew : statusOf (stepEvent reg (TMEvent.cancel id2)) id2 =
              some TaskStatus.cancelled := by
            rw [hstep, statusOf_updateWith, hl]; rfl
          rw [hcur] at h
          rw [hcur, hnew]
          cases tst with
          | pending =>
            simp [goodPhase, ValidTags, allowedStepO, allowedStep] at h ⊢
            rcases h with h | h | h
            · exact Or.inl (Or.inl h)
            · exact Or.inl (Or.inr (Or.inl h))
            · exact Or.inl (Or.inr (Or.inr h))
          | running =>
            simp [goodPhase, ValidTags, allowedStepO, allowedStep] at h ⊢
            rcases h with h | h
            · exact Or.inl (Or.inl h)
            · exact Or.inr h
          | cancelled => simp [isTerminal] at hterm
          | completed => simp [isTerminal] at hterm
          | failed => simp [isTerminal] at hterm
    | progress id2 p =>
      rw [show eventId (TMEvent.progress id2 p : TMEvent α) = id2 from rfl] at hid
      subst hid
      simp only [runTag, Option.toList_none, List.nil_append] at h
      have hsame : statusOf (stepEvent reg (TMEvent.progress id2 p)) id2 =
          statusOf reg id2 := by
        rw [stepEvent, updateProgress, statusOf_updateWith, statusOf]
      rw [hsame]
      exact ⟨h, allowedStepO_refl _⟩

/-- Every valid-phase trace yields a chain of allowed status changes. -/
theorem traceChain {α : Type} (id : String) :
    ∀ (es : List (TMEvent α)) (reg : TaskRegistry α),
      goodPhase (statusOf reg id) (runTags id es) →
      List.Chain' allowedStepO (statusTrace id reg es) := by
  intro es
  induction es with
  | nil =>
    intro reg _
    simp [statusTrace]
  | cons e rest ih =>
    intro reg h
    rw [runTags_cons] at h
    obtain ⟨hgood, hallow⟩ := stepGood reg e id (runTags id rest) h
    rw [statusTrace]
    refine List.chain'_cons'.mpr ⟨?_, ih (stepEvent reg e) hgood⟩
    intro b hb
    simp only [statusTrace_head, Option.mem_def, Option.some.injEq] at hb
    rw [← hb]
    exact hallow

theorem chain_stable_aux {γ : Type} (R : γ → γ → Prop) (P : γ → Prop)
    (hst : ∀ a b, P a → R a b → b = a) :
    ∀ (post : List γ) (x : γ), List.Chain' R (x :: post) → P x → ∀ y ∈ post, y = x := by
  intro post
  induction post with
  | nil =>
    intro x _ _ y hy
    cases hy
  | cons z post2 ih =>
    intro x hch hx y hy
    have hxz : R x z := (List.chain'_cons.mp hch).1
    have hz : z = x := hst x z hx hxz
    have hch2 : List.Chain' R (z :: post2) := (List.chain'_cons.mp hch).2
    rcases List.mem_cons.mp hy with hy | hy
    · rw [hy, hz]
    · rw [ih z hch2 (hz ▸ hx) y hy, hz]

theorem chain_stable {γ : Type} (R : γ → γ → Prop) (P : γ → Prop)
    (hst : ∀ a b, P a → R a b → b = a) :
    ∀ (pre l : List γ) (x : γ) (post : List γ), List.Chain' R l → l = pre ++ x :: post →
      P x → ∀ y ∈ post, y = x := by
  intro pre
  induction pre with
  | nil =>
    intro l x post hch hl hx
    subst hl
    exact chain_stable_aux R P hst post x hch hx
  | cons a pre2 ih =>
    intro l x post hch hl hx
    subst hl
    exact ih _ x post hch.tail rfl hx

theorem allowed_terminal_stable :
    ∀ a b : Option TaskStatus,
      (a = some TaskStatus.completed ∨ a = some TaskStatus.failed) →
      allowedStepO a b → b = a := by
  intro a b ha hab
  rcases ha with ha | ha <;> subst ha <;>
    cases b with
    | none => exact hab.elim
    | some sb =>
      rcases hab with h | ⟨h1, _⟩ | ⟨h1, _⟩ | ⟨h1, _⟩
      · rw [h]
      · cases h1
      · cases h1
      · cases h1

/-- A valid trace starts in a phase consistent with its run events. -/
theorem validTrace_good {α : Type} (reg : TaskRegistry α) (es : List (TMEvent α))
    (id : String) (hv : ValidTrace reg es id) :
    goodPhase (statusOf reg id) (runTags id es) := by
  rcases hv with hv | ⟨hp, hvt⟩
  · rw [hv]
    cases hs : statusOf reg id with
    | none => simp [goodPhase]
    | some st => cases st <;> simp [goodPhase, ValidTags]
  · rw [hp]
    exact hvt

/-- Counterexample to claim C1 as stated: on the valid trace where the
worker picks up the pending task, the task is cancelled while running,
and the worker then finishes the work, the terminal status cancelled is
followed by a further transition to completed — the worker completion
path of the source overwrites the status unconditionally. -/
theorem task_cancelled_overwritten :
    ValidTrace regPending traceCancelThenFinish "task_1" ∧
    statusOf (applyEvents regPending (traceCancelThenFinish.take 2)) "task_1" =
      some TaskStatus.cancelled ∧
    isTerminal TaskStatus.cancelled = true ∧
    statusOf (applyEvents regPending traceCancelThenFinish) "task_1" =
      some TaskStatus.completed ∧
    TaskStatus.completed ≠ TaskStatus.cancelled := by
  refine ⟨by decide, rfl, rfl, rfl, by decide⟩

/-- Claim C1 (amended): along every trace in which a task is started at
most once and finished at most once by its worker run, each observed
status change of that task is one of the transitions the code performs
(pending to running, non-terminal to cancelled, running to a terminal
finish, or the worker run overwriting cancelled with running, completed
or failed), and once the status is completed or failed it never changes
again; the status cancelled, however, is not final against the worker
run of the same task. -/
theorem task_status_evolution {α : Type} (reg : TaskRegistry α) (es : List (TMEvent α))
    (id : String) (hv : ValidTrace reg es id) :
    List.Chain' allowedStepO (statusTrace id reg es) ∧
    ∀ pre x post, statusTrace id reg es = pre ++ x :: post →
      (x = some TaskStatus.completed ∨ x = some TaskStatus.failed) →
      ∀ y ∈ post, y = x := by
  have hchain := traceChain id es reg (validTrace_good reg es id hv)
  refine ⟨hchain, ?_⟩
  intro pre x post hsplit hx y hy
  exact chain_stable allowedStepO
    (fun a => a = some TaskStatus.completed ∨ a = some TaskStatus.failed)
    allowed_terminal_stable pre _ x post hchain hsplit hx y hy

/-- Witness for claim C1 (amended): the normal run trace of the pending
task consists solely of allowed transitions. -/
theorem task_status_evolution_witness :
    List.Chain' allowedStepO (statusTrace "task_1" regPending traceNormalRun) :=
  (task_status_evolution regPending traceNormalRun "task_1" (by decide)).1
